import Mathlib

/-!
Verification of the command-relay and telemetry-buffer core of
`mcp-server.js` (chrome-devtools-mcp).

The embedding below is a shallow model of the server-side state and its
operations, translated directly from the source:

* `commandQueue` (a JS `Map` from command id to command record) is modelled
  as an insertion-ordered association list `Store V`, with `mapGet`,
  `mapSet`, `mapUpdate`, `mapDelete` mirroring `Map.get` / `Map.set`
  (update-in-place or append) / in-place record mutation / `Map.delete`.
* Command records carry `id, action, params, timestamp, status, result`
  exactly as built in `sendCommandToExtension`.  The JS `result` field can
  hold `null`, the raw success payload, or an `{ error }` object; this is
  the inductive `ResVal`.
* Payloads and params are opaque JS values, modelled by a type parameter `V`.
-/

namespace ChromeDevtoolsMcp

/-- Command status: `'pending' | 'completed' | 'error'` in the source. -/
inductive Status where
  | pending
  | completed
  | error
deriving DecidableEq

/-- The JS `result` field of a command record: initially `null`, set to the
raw payload on success, or to an `{ error }` object on failure
(`command.result = success ? result : { error }`). -/
inductive ResVal (V : Type) where
  | null
  | payload (p : V)
  | errObj (e : Option String)
deriving DecidableEq

/-- A command record, as built in `sendCommandToExtension`:
`{ id, action, params, timestamp: Date.now(), status: 'pending', result: null }`. -/
structure Command (V : Type) where
  id : Nat
  action : String
  params : V
  timestamp : Nat
  status : Status
  result : ResVal V
deriving DecidableEq

/-- `commandQueue : Map<number, Command>`, modelled as an insertion-ordered
association list. -/
abbrev Store (V : Type) := List (Nat × Command V)

/-- `commandQueue.get(k)`. -/
def mapGet {V : Type} (m : Store V) (k : Nat) : Option (Command V) :=
  (m.find? (fun p => p.1 = k)).map (·.2)

/-- `commandQueue.set(k, v)`: replaces the value at an existing key (keeping
its insertion position) or appends a fresh entry. -/
def mapSet {V : Type} (m : Store V) (k : Nat) (v : Command V) : Store V :=
  if m.any (fun p => p.1 = k) then
    m.map (fun p => if p.1 = k then (k, v) else p)
  else
    m ++ [(k, v)]

/-- In-place mutation of the record stored at key `k` (JS object mutation
through the reference obtained from `Map.get`). -/
def mapUpdate {V : Type} (m : Store V) (k : Nat) (f : Command V → Command V) : Store V :=
  m.map (fun p => if p.1 = k then (p.1, f p.2) else p)

/-- `commandQueue.delete(k)`. -/
def mapDelete {V : Type} (m : Store V) (k : Nat) : Store V :=
  m.filter (fun p => ¬ p.1 = k)

/-! ### The `/command-result` endpoint -/

/-- The mutation performed by the `/command-result` handler on a record it
found in the queue:
`command.status = success ? 'completed' : 'error'; command.result = success ? result : { error }`. -/
def applyReport {V : Type} (c : Command V) (success : Bool) (result : V)
    (error : Option String) : Command V :=
  { c with
    status := if success then .completed else .error,
    result := if success then .payload result else .errObj error }

/-- `app.post('/command-result')`: looks up `commandId`; if present, mutates
status and result (unconditionally — there is no pending-status check in the
source); in all cases responds `{ success: true }` (the `Bool` component). -/
def commandResult {V : Type} (m : Store V) (commandId : Nat) (success : Bool)
    (result : V) (error : Option String) : Store V × Bool :=
  match mapGet m commandId with
  | some _ => (mapUpdate m commandId (fun c => applyReport c success result error), true)
  | none => (m, true)

/-! ### The `/poll-commands` endpoint -/

/-- The projection `({ id, action, params }) => ({ id, action, params })`. -/
structure PendingView (V : Type) where
  id : Nat
  action : String
  params : V
deriving DecidableEq

/-- `app.get('/poll-commands')`: snapshot of all pending records, projected to
`{id, action, params}`.  (`Map.values()` iterates in insertion order.) -/
def pollCommands {V : Type} (m : Store V) : List (PendingView V) :=
  ((m.map (·.2)).filter (fun c => decide (c.status = Status.pending))).map
    (fun c => ⟨c.id, c.action, c.params⟩)

/-- The handler as a state transformer: it reads `commandQueue` and responds,
performing no mutation of the queue. -/
def pollCommandsHandler {V : Type} (m : Store V) : Store V × List (PendingView V) :=
  (m, pollCommands m)

/-! ### The cleanup interval (reaper) -/

/-- `const maxAge = 60000; // 1 minute` in the cleanup interval. -/
def cleanupMaxAge : Nat := 60000

/-- One sweep of the cleanup interval: deletes every entry with
`now - cmd.timestamp > maxAge`, keeps the rest (in order).  JS subtraction on
timestamps coincides with truncated `Nat` subtraction here: when
`cmd.timestamp > now` the JS difference is negative, hence not `> maxAge`,
and the `Nat` difference is `0`, likewise not `> maxAge`. -/
def cleanupSweep {V : Type} (m : Store V) (now : Nat) : Store V :=
  m.filter (fun p => decide (now - p.2.timestamp ≤ cleanupMaxAge))

/-! ### `sendCommandToExtension` (the dispatch operation)

The source waits in a loop, re-reading the queue every 100 ms until the
record's status is terminal or 30 s have elapsed.  The interaction with the
peer is captured by an optional `ReportEvent`: the single `/command-result`
report for this command, tagged with the elapsed time (ms since dispatch
start) at which the server processed it.  `storeAt` gives the queue contents
as seen by the loop's check at a given elapsed time. -/

/-- `const timeout = 30000; // 30 seconds` in `sendCommandToExtension`. -/
def dispatchTimeoutMs : Nat := 30000

/-- `setTimeout(resolve, 100)`: the polling interval of the wait loop. -/
def pollIntervalMs : Nat := 100

/-- Number of loop iterations: checks happen at elapsed `0, 100, …` while
`elapsed < 30000`, i.e. at the 300 ticks `k = 0 … 299`. -/
def pollTicks : Nat := dispatchTimeoutMs / pollIntervalMs

/-- The peer's `/command-result` report for one dispatched command:
processed by the server at elapsed time `arrivalMs` after dispatch start,
with body `{ success, result, error }`. -/
structure ReportEvent (V : Type) where
  arrivalMs : Nat
  success : Bool
  result : V
  error : Option String
deriving DecidableEq

/-- Queue contents observed by the wait loop at elapsed time `elapsed`,
given the store right after insertion and the (optional) report event. -/
def storeAt {V : Type} (mIns : Store V) (cid : Nat) (arrival : Option (ReportEvent V))
    (elapsed : Nat) : Store V :=
  match arrival with
  | some ev =>
      if ev.arrivalMs ≤ elapsed then (commandResult mIns cid ev.success ev.result ev.error).1
      else mIns
  | none => mIns

/-- JS `a || b` on an optional string: `undefined` and `""` are falsy. -/
def jsOrStr : Option String → String → String
  | some s, d => if s = "" then d else s
  | none, d => d

/-- `cmd.result?.error`: the `error` field of the stored result value
(`undefined` unless the result is an `{ error }` object). -/
def resErrField {V : Type} : ResVal V → Option String
  | .errObj e => e
  | _ => none

/-- Outcome of `sendCommandToExtension`: normal return of `cmd.result`, the
`throw new Error(cmd.result?.error || 'Command failed')` path, the
`throw new Error('Command timeout')` path, or the `TypeError` that the
unguarded `cmd.status` read would raise if the record were missing. -/
inductive DispatchOutcome (V : Type) where
  | success (result : ResVal V)
  | actionError (message : String)
  | timeout
  | crash
deriving DecidableEq

/-- The wait loop of `sendCommandToExtension`, one step per 100 ms check;
`fuel` is the number of remaining checks and `k` the current tick, so the
check at tick `k` happens at elapsed `pollIntervalMs * k`.  On each exit path
the source deletes the id before returning/throwing; the `crash` path models
the unguarded `cmd.status` read on a missing record (no delete happens). -/
def sendLoop {V : Type} (env : Nat → Store V) (cid : Nat) :
    Nat → Nat → DispatchOutcome V × Store V
  | 0, k => (.timeout, mapDelete (env (pollIntervalMs * k)) cid)
  | fuel + 1, k =>
    let m := env (pollIntervalMs * k)
    match mapGet m cid with
    | some cmd =>
      match cmd.status with
      | .completed => (.success cmd.result, mapDelete m cid)
      | .error => (.actionError (jsOrStr (resErrField cmd.result) "Command failed"), mapDelete m cid)
      | .pending => sendLoop env cid fuel (k + 1)
    | none => (.crash, m)

/-- The fresh record built at the top of `sendCommandToExtension`. -/
def newCommand {V : Type} (cid : Nat) (action : String) (params : V) (t0 : Nat) : Command V :=
  { id := cid, action := action, params := params, timestamp := t0,
    status := .pending, result := .null }

/-- `sendCommandToExtension(action, params)`: allocates `++commandIdCounter`,
inserts the pending record, then runs the wait loop against the queue as
influenced by the (optional) peer report.  Returns the outcome and the final
queue. -/
def sendCommandToExtension {V : Type} (m0 : Store V) (idCounter : Nat) (action : String)
    (params : V) (t0 : Nat) (arrival : Option (ReportEvent V)) :
    DispatchOutcome V × Store V :=
  sendLoop
    (storeAt (mapSet m0 (idCounter + 1) (newCommand (idCounter + 1) action params t0))
      (idCounter + 1) arrival)
    (idCounter + 1) pollTicks 0

/-! ### Telemetry buffers (`devToolsData` and `/devtools-data`) -/

/-- JS `l.slice(-n)` for a non-negative `n`: the last `n` elements, except
that `slice(-0)` is `slice(0)`, the whole list. -/
def jsSliceNeg {α : Type} (l : List α) (n : Nat) : List α :=
  if n = 0 then l else l.drop (l.length - n)

/-- Buffer capacity for `networkRequests` (`> 5000` / `slice(-5000)`). -/
def networkCapacity : Nat := 5000

/-- Buffer capacity for `consoleLogs`. -/
def consoleCapacity : Nat := 5000

/-- Buffer capacity for `performanceMetrics`. -/
def performanceCapacity : Nat := 500

/-- The push-then-trim pattern of the `/devtools-data` handler:
`buf.push(data); if (buf.length > cap) buf = buf.slice(-cap)`. -/
def pushCapped {V : Type} (buf : List V) (data : V) (cap : Nat) : List V :=
  let b := buf ++ [data]
  if b.length > cap then jsSliceNeg b cap else b

/-- The `devToolsData` global: three telemetry buffers plus the diagnostic
`lastUpdate` ISO timestamp. -/
structure DevToolsData (V : Type) where
  networkRequests : List V
  consoleLogs : List V
  performanceMetrics : List V
  lastUpdate : Option String
deriving DecidableEq

/-- The initial `devToolsData` value (empty buffers, `lastUpdate: null`). -/
def initialDevToolsData {V : Type} : DevToolsData V :=
  { networkRequests := [], consoleLogs := [], performanceMetrics := [], lastUpdate := none }

/-- `app.post('/devtools-data')`: dispatches on `type`, pushes into the
matching capped buffer, and stamps `lastUpdate` (`nowIso` stands for
`new Date().toISOString()`). -/
def devtoolsDataPost {V : Type} (d : DevToolsData V) (type : String) (data : V)
    (nowIso : String) : DevToolsData V :=
  let d' :=
    if type = "network" then
      { d with networkRequests := pushCapped d.networkRequests data networkCapacity }
    else if type = "console" then
      { d with consoleLogs := pushCapped d.consoleLogs data consoleCapacity }
    else if type = "performance" then
      { d with performanceMetrics := pushCapped d.performanceMetrics data performanceCapacity }
    else d
  { d' with lastUpdate := some nowIso }

/-- One telemetry push as received on the wire: `{ type, data }`, plus the
server-side timestamp it is stamped with. -/
structure TelemetryEvent (V : Type) where
  type : String
  data : V
  nowIso : String

/-- A sequence of `/devtools-data` requests applied in order. -/
def foldPost {V : Type} (d : DevToolsData V) (evs : List (TelemetryEvent V)) : DevToolsData V :=
  evs.foldl (fun d e => devtoolsDataPost d e.type e.data e.nowIso) d

/-- The data of the events of a sequence that target a given buffer type. -/
def eventsOfType {V : Type} (type : String) (evs : List (TelemetryEvent V)) : List V :=
  (evs.filter (fun e => decide (e.type = type))).map (·.data)

/-! ### Telemetry query tools (`get_network_requests`, `get_console_logs`,
`get_performance_metrics`) -/

/-- JS `a || d` on an optional number, as used for `args.limit || 50`:
`undefined` and `0` are falsy. -/
def jsOrNat : Option Nat → Nat → Nat
  | some n, d => if n = 0 then d else n
  | none, d => d

/-- JS `String.prototype.includes`. -/
def strIncludes (s pat : String) : Bool :=
  (List.range (s.length + 1)).any (fun i => pat.isPrefixOf (s.drop i))

/-- A stored telemetry record, with the fields the query handlers touch
(`tabId`, `url`, `level`) and the rest of the payload opaque.  `url` is
optional because the source guards it with `req.url?.`. -/
structure TelemetryRecord (V : Type) where
  tabId : Nat
  url : Option String
  level : String
  data : V
deriving DecidableEq

/-- `if (tabId) xs = xs.filter(x => x.tabId === tabId)`: the filter applies
only when `args.tab_id` is truthy (present and non-zero). -/
def applyTabFilter {V : Type} (l : List (TelemetryRecord V)) (tabId : Option Nat) :
    List (TelemetryRecord V) :=
  match tabId with
  | some t => if t = 0 then l else l.filter (fun r => decide (r.tabId = t))
  | none => l

/-- The `get_network_requests` tool handler: default limit 50, optional url
substring filter (case-insensitive: `req.url?.toLowerCase().includes(urlFilter.toLowerCase())`,
records without a url are dropped by the filter), optional tab filter, then
`slice(-limit)`. -/
def getNetworkRequests {V : Type} (buf : List (TelemetryRecord V)) (limit : Option Nat)
    (urlFilter : Option String) (tabId : Option Nat) : List (TelemetryRecord V) :=
  let lim := jsOrNat limit 50
  let requests := applyTabFilter buf tabId
  let requests :=
    match urlFilter with
    | some f =>
        if f = "" then requests
        else requests.filter (fun r =>
          match r.url with
          | some u => strIncludes u.toLower f.toLower
          | none => false)
    | none => requests
  jsSliceNeg requests lim

/-- The `get_console_logs` tool handler: default limit 50, optional exact
level filter (`log.level === levelFilter`), optional tab filter, then
`slice(-limit)`. -/
def getConsoleLogs {V : Type} (buf : List (TelemetryRecord V)) (limit : Option Nat)
    (levelFilter : Option String) (tabId : Option Nat) : List (TelemetryRecord V) :=
  let lim := jsOrNat limit 50
  let logs := applyTabFilter buf tabId
  let logs :=
    match levelFilter with
    | some lf => if lf = "" then logs else logs.filter (fun r => decide (r.level = lf))
    | none => logs
  jsSliceNeg logs lim

/-- The `get_performance_metrics` tool handler: default limit 20, optional
tab filter, then `slice(-limit)`. -/
def getPerformanceMetrics {V : Type} (buf : List (TelemetryRecord V)) (limit : Option Nat)
    (tabId : Option Nat) : List (TelemetryRecord V) :=
  let lim := jsOrNat limit 20
  let metrics := applyTabFilter buf tabId
  jsSliceNeg metrics lim

/-- A sequence of pushes into one capped buffer. -/
def pushAll {V : Type} (buf : List V) (xs : List V) (cap : Nat) : List V :=
  xs.foldl (fun b x => pushCapped b x cap) buf

/-! ### Basic store lemmas -/

theorem mapGet_mapSet_self {V : Type} (m : Store V) (k : Nat) (v : Command V) :
    mapGet (mapSet m k v) k = some v := by
  unfold mapSet
  by_cases h : m.any (fun p => p.1 = k) = true
  · simp only [h, if_true]
    induction m with
    | nil => simp at h
    | cons a t ih =>
      by_cases hk : a.1 = k
      · simp [mapGet, List.find?_cons, hk]
      · have ht : t.any (fun p => p.1 = k) = true := by
          simp only [List.any_cons] at h
          rcases Bool.or_eq_true_iff.mp h with h1 | h1
          · exact absurd (of_decide_eq_true h1) hk
          · exact h1
        simpa [mapGet, List.find?_cons, hk] using ih ht
  · simp only [h, if_false]
    induction m with
    | nil => simp [mapGet]
    | cons a t ih =>
      have hk : ¬ a.1 = k := by
        intro hak
        exact h (by simp [List.any_cons, hak])
      have ht : ¬ t.any (fun p => p.1 = k) = true := by
        intro hta
        exact h (by simp [List.any_cons, hta])
      simpa [mapGet, List.find?_cons, hk] using ih ht

theorem mapGet_mapDelete_self {V : Type} (m : Store V) (k : Nat) :
    mapGet (mapDelete m k) k = none := by
  unfold mapGet mapDelete
  induction m with
  | nil => simp
  | cons a t ih =>
    by_cases hk : a.1 = k
    · simp only [List.filter_cons, hk]
      simpa using ih
    · simp only [List.filter_cons, hk]
      simpa [List.find?_cons, hk] using ih

theorem mapGet_mapUpdate_self {V : Type} (m : Store V) (k : Nat) (f : Command V → Command V) :
    mapGet (mapUpdate m k f) k = (mapGet m k).map f := by
  unfold mapGet mapUpdate
  induction m with
  | nil => simp
  | cons a t ih =>
    by_cases hk : a.1 = k
    · simp [List.find?_cons, hk]
    · simpa [List.find?_cons, hk] using ih

/-- If `find?` hits `x` and the filter predicate keeps `x`, filtering does not
change the result of `find?`. -/
theorem find?_filter_of_pred {α : Type} (l : List α) (p q : α → Bool) (x : α)
    (h : l.find? p = some x) (hq : q x = true) :
    (l.filter q).find? p = some x := by
  induction l with
  | nil => simp at h
  | cons a t ih =>
    by_cases hp : p a = true
    · rw [List.find?_cons_of_pos t hp] at h
      cases h
      rw [List.filter_cons_of_pos hq]
      exact List.find?_cons_of_pos _ hp
    · rw [List.find?_cons_of_neg t hp] at h
      by_cases hqa : q a = true
      · rw [List.filter_cons_of_pos hqa, List.find?_cons_of_neg _ hp]
        exact ih h
      · rw [List.filter_cons_of_neg hqa]
        exact ih h

/-! ### Wait-loop lemmas -/

/-- If every remaining check sees the record pending, the loop exhausts its
fuel and exits through the timeout path (which deletes the id). -/
theorem sendLoop_pending_timeout {V : Type} (env : Nat → Store V) (cid : Nat) :
    ∀ fuel k : Nat,
      (∀ j, j < fuel →
        ∃ c, mapGet (env (pollIntervalMs * (k + j))) cid = some c ∧ c.status = .pending) →
      sendLoop env cid fuel k =
        (.timeout, mapDelete (env (pollIntervalMs * (k + fuel))) cid) := by
  intro fuel
  induction fuel with
  | zero => intro k _; simp [sendLoop]
  | succ n ih =>
    intro k h
    obtain ⟨c, hc, hp⟩ := h 0 n.succ_pos
    rw [Nat.add_zero] at hc
    have step : sendLoop env cid (n + 1) k = sendLoop env cid n (k + 1) := by
      simp only [sendLoop, hc, hp]
    rw [step, ih (k + 1) (fun j hj => by
      have := h (j + 1) (by omega)
      rwa [show k + (j + 1) = k + 1 + j by omega] at this)]
    rw [show k + 1 + n = k + (n + 1) by omega]

/-- If the record is pending before the report and some check within the fuel
happens at or after the report's arrival, the loop exits at the first such
check through the terminal branch matching the report, deleting the id from
the post-report queue. -/
theorem sendLoop_report {V : Type} (mIns : Store V) (cid : Nat) (ev : ReportEvent V)
    (c0 : Command V) (h0 : mapGet mIns cid = some c0) (hp : c0.status = .pending) :
    ∀ fuel k : Nat, (∃ j, j < fuel ∧ ev.arrivalMs ≤ pollIntervalMs * (k + j)) →
      sendLoop (storeAt mIns cid (some ev)) cid fuel k =
        ((if ev.success then .success (.payload ev.result)
          else .actionError (jsOrStr ev.error "Command failed")),
         mapDelete (commandResult mIns cid ev.success ev.result ev.error).1 cid) := by
  intro fuel
  induction fuel with
  | zero => rintro k ⟨j, hj, _⟩; omega
  | succ n ih =>
    intro k h
    have hCR : (commandResult mIns cid ev.success ev.result ev.error).1 =
        mapUpdate mIns cid (fun c => applyReport c ev.success ev.result ev.error) := by
      simp [commandResult, h0]
    by_cases harr : ev.arrivalMs ≤ pollIntervalMs * k
    · have henv : storeAt mIns cid (some ev) (pollIntervalMs * k) =
          (commandResult mIns cid ev.success ev.result ev.error).1 := by
        simp [storeAt, harr]
      have hget : mapGet (commandResult mIns cid ev.success ev.result ev.error).1 cid =
          some (applyReport c0 ev.success ev.result ev.error) := by
        rw [hCR, mapGet_mapUpdate_self, h0, Option.map_some']
      cases hs : ev.success with
      | true =>
        simp only [hs] at hget
        simp [sendLoop, henv, hs, hget, applyReport]
      | false =>
        simp only [hs] at hget
        simp [sendLoop, henv, hs, hget, applyReport, resErrField]
    · have henv : storeAt mIns cid (some ev) (pollIntervalMs * k) = mIns := by
        simp [storeAt, harr]
      have step : sendLoop (storeAt mIns cid (some ev)) cid (n + 1) k =
          sendLoop (storeAt mIns cid (some ev)) cid n (k + 1) := by
        simp only [sendLoop, henv, h0, hp]
      obtain ⟨j, hj, hle⟩ := h
      have hj0 : j ≠ 0 := by
        rintro rfl
        rw [Nat.add_zero] at hle
        exact harr hle
      rw [step]
      exact ih (k + 1) ⟨j - 1, by omega, by
        rwa [show k + 1 + (j - 1) = k + j by omega]⟩

/-! ### Telemetry buffer lemmas -/

theorem pushCapped_eq_drop {V : Type} (buf : List V) (v : V) (cap : Nat) (hcap : 0 < cap) :
    pushCapped buf v cap = (buf ++ [v]).drop (buf.length + 1 - cap) := by
  unfold pushCapped jsSliceNeg
  simp only [List.length_append, List.length_cons, List.length_nil, Nat.zero_add]
  by_cases h : buf.length + 1 > cap
  · simp [h, Nat.ne_of_gt hcap]
  · have h0 : buf.length + 1 - cap = 0 := by omega
    simp [h, h0]

theorem pushAll_eq_drop {V : Type} (xs : List V) :
    ∀ (buf : List V) (cap : Nat), 0 < cap → buf.length ≤ cap →
      pushAll buf xs cap = (buf ++ xs).drop (buf.length + xs.length - cap) := by
  induction xs with
  | nil =>
    intro buf cap _ hb
    simp [pushAll, Nat.sub_eq_zero_of_le hb]
  | cons x t ih =>
    intro buf cap hc hb
    have hpc : pushCapped buf x cap = (buf ++ [x]).drop (buf.length + 1 - cap) :=
      pushCapped_eq_drop buf x cap hc
    have hlen : (pushCapped buf x cap).length = (buf.length + 1) - (buf.length + 1 - cap) := by
      rw [hpc, List.length_drop]
      simp
    have hble : (pushCapped buf x cap).length ≤ cap := by omega
    have hstep : pushAll buf (x :: t) cap = pushAll (pushCapped buf x cap) t cap := rfl
    have hle : buf.length + 1 - cap ≤ (buf ++ [x]).length := by
      simp only [List.length_append, List.length_cons, List.length_nil]
      omega
    rw [hstep, ih (pushCapped buf x cap) cap hc hble, hpc,
      ← List.drop_append_of_le_length hle, List.drop_drop]
    have hassoc : (buf ++ [x]) ++ t = buf ++ x :: t := by simp
    rw [hassoc]
    congr 1
    simp only [List.length_drop, List.length_append, List.length_cons, List.length_nil]
    omega

theorem foldPost_networkRequests {V : Type} (evs : List (TelemetryEvent V)) :
    ∀ d : DevToolsData V,
      (foldPost d evs).networkRequests =
        pushAll d.networkRequests (eventsOfType "network" evs) networkCapacity := by
  induction evs with
  | nil => intro d; simp [foldPost, eventsOfType, pushAll]
  | cons e t ih =>
    intro d
    have hstep : foldPost d (e :: t) = foldPost (devtoolsDataPost d e.type e.data e.nowIso) t := rfl
    rw [hstep, ih]
    by_cases h : e.type = "network"
    · simp [devtoolsDataPost, h, eventsOfType, pushAll, List.filter_cons]
    · have hkeep : (devtoolsDataPost d e.type e.data e.nowIso).networkRequests =
          d.networkRequests := by
        unfold devtoolsDataPost
        by_cases h2 : e.type = "console" <;> by_cases h3 : e.type = "performance" <;>
          simp [h, h2, h3]
      rw [hkeep]
      simp [eventsOfType, List.filter_cons, h]

theorem foldPost_consoleLogs {V : Type} (evs : List (TelemetryEvent V)) :
    ∀ d : DevToolsData V,
      (foldPost d evs).consoleLogs =
        pushAll d.consoleLogs (eventsOfType "console" evs) consoleCapacity := by
  induction evs with
  | nil => intro d; simp [foldPost, eventsOfType, pushAll]
  | cons e t ih =>
    intro d
    have hstep : foldPost d (e :: t) = foldPost (devtoolsDataPost d e.type e.data e.nowIso) t := rfl
    rw [hstep, ih]
    by_cases h : e.type = "console"
    · have hnw : ¬ e.type = "network" := by rw [h]; decide
      simp [devtoolsDataPost, h, hnw, eventsOfType, pushAll, List.filter_cons]
    · have hkeep : (devtoolsDataPost d e.type e.data e.nowIso).consoleLogs =
          d.consoleLogs := by
        unfold devtoolsDataPost
        by_cases h2 : e.type = "network" <;> by_cases h3 : e.type = "performance" <;>
          simp [h, h2, h3]
      rw [hkeep]
      simp [eventsOfType, List.filter_cons, h]

theorem foldPost_performanceMetrics {V : Type} (evs : List (TelemetryEvent V)) :
    ∀ d : DevToolsData V,
      (foldPost d evs).performanceMetrics =
        pushAll d.performanceMetrics (eventsOfType "performance" evs) performanceCapacity := by
  induction evs with
  | nil => intro d; simp [foldPost, eventsOfType, pushAll]
  | cons e t ih =>
    intro d
    have hstep : foldPost d (e :: t) = foldPost (devtoolsDataPost d e.type e.data e.nowIso) t := rfl
    rw [hstep, ih]
    by_cases h : e.type = "performance"
    · have hnw : ¬ e.type = "network" := by rw [h]; decide
      have hcs : ¬ e.type = "console" := by rw [h]; decide
      simp [devtoolsDataPost, h, hnw, hcs, eventsOfType, pushAll, List.filter_cons]
    · have hkeep : (devtoolsDataPost d e.type e.data e.nowIso).performanceMetrics =
          d.performanceMetrics := by
        unfold devtoolsDataPost
        by_cases h2 : e.type = "network" <;> by_cases h3 : e.type = "console" <;>
          simp [h, h2, h3]
      rw [hkeep]
      simp [eventsOfType, List.filter_cons, h]

/-! ### Claims -/

/-- Claim C1, counterexample.  The claim states that a result report
transitions a record's status if and only if the current status is pending,
and that once a record is terminal a subsequent report changes neither its
status nor its result.  The `/command-result` handler has no pending-status
check: here a record that is already `completed` with result `"done"` is
turned into an `error` record with result `{ error: "boom" }` by a later
report, so both its status and its result change. -/
theorem claim_C1_counterexample :
    (let c : Command String :=
      { id := 1, action := "click", params := "sel", timestamp := 0,
        status := .completed, result := .payload "done" };
     c.status ≠ Status.pending ∧
     mapGet ((commandResult [(1, c)] 1 false "x" (some "boom")).1) 1 =
       some { c with status := .error, result := .errObj (some "boom") } ∧
     (commandResult [(1, c)] 1 false "x" (some "boom")).1 ≠ [(1, c)]) := by
  refine ⟨by decide, by decide, by decide⟩

/-- Claim C1, amended: the result-report operation applies its status/result
mutation to the record whenever the id is present, regardless of the current
status (so a report on a terminal record overwrites both fields); for an
absent id the store is unchanged; the response is always a success
acknowledgement. -/
theorem claim_C1 {V : Type} (m : Store V) (cid : Nat) (c : Command V)
    (success : Bool) (r : V) (e : Option String) :
    (mapGet m cid = some c →
      mapGet ((commandResult m cid success r e).1) cid =
        some (applyReport c success r e)) ∧
    (mapGet m cid = none → (commandResult m cid success r e).1 = m) ∧
    (commandResult m cid success r e).2 = true := by
  refine ⟨fun h => ?_, fun h => ?_, ?_⟩
  · simp [commandResult, h, mapGet_mapUpdate_self]
  · simp [commandResult, h]
  · cases h : mapGet m cid <;> simp [commandResult, h]

/-- Claim C1 witness: the amended statement at a concrete store. -/
theorem claim_C1_witness :
    (let c : Command String :=
      { id := 1, action := "click", params := "sel", timestamp := 0,
        status := .completed, result := .payload "done" };
     mapGet [(1, c)] 1 = some c ∧
     mapGet ((commandResult [(1, c)] 1 true "ok" none).1) 1 =
       some (applyReport c true "ok" none)) :=
  ⟨rfl, (claim_C1 [(1, _)] 1 _ true "ok" none).1 rfl⟩

/-- Claim C4: reporting a result for an id that is not in the store leaves
the store unchanged and still responds `{ success: true }`; the handler has
no failing path in this case. -/
theorem claim_C4 {V : Type} (m : Store V) (cid : Nat) (success : Bool) (r : V)
    (e : Option String) (h : mapGet m cid = none) :
    commandResult m cid success r e = (m, true) := by
  simp [commandResult, h]

/-- Claim C4 witness: a late report for id 7 against the empty store. -/
theorem claim_C4_witness :
    mapGet ([] : Store String) 7 = none ∧
    commandResult ([] : Store String) 7 false "late" (some "too late") = ([], true) :=
  ⟨rfl, claim_C4 [] 7 false "late" (some "too late") rfl⟩

/-- Claim C6: the poll endpoint leaves the store unchanged, and its response
consists of exactly the projections `{id, action, params}` of the records
whose status is pending (in particular it never contains a record in a
terminal state). -/
theorem claim_C6 {V : Type} (m : Store V) :
    (pollCommandsHandler m).1 = m ∧
    ∀ x : PendingView V,
      (x ∈ (pollCommandsHandler m).2 ↔
        ∃ c : Command V, (∃ id, (id, c) ∈ m) ∧ c.status = Status.pending ∧
          x = ⟨c.id, c.action, c.params⟩) := by
  refine ⟨rfl, fun x => ?_⟩
  simp only [pollCommandsHandler, pollCommands, List.mem_map, List.mem_filter,
    decide_eq_true_eq]
  constructor
  · rintro ⟨c, ⟨⟨p, hp, rfl⟩, hst⟩, rfl⟩
    exact ⟨p.2, ⟨p.1, hp⟩, hst, rfl⟩
  · rintro ⟨c, ⟨id, hid⟩, hst, rfl⟩
    exact ⟨c, ⟨⟨(id, c), hid, rfl⟩, hst⟩, rfl⟩

/-- Claim C7: one reaper sweep keeps exactly the entries with
`now - createdAt ≤ 60000` — an entry survives the sweep iff it was in the
store and is not over-age (its status is irrelevant: the condition does not
mention it) — and the survivors are a sublist of the original store, i.e.
every other record is left unchanged and in order. -/
theorem claim_C7 {V : Type} (m : Store V) (now : Nat) :
    (∀ (id : Nat) (c : Command V),
      ((id, c) ∈ cleanupSweep m now ↔
        (id, c) ∈ m ∧ ¬ now - c.timestamp > cleanupMaxAge)) ∧
    (cleanupSweep m now).Sublist m := by
  refine ⟨fun id c => ?_, List.filter_sublist m⟩
  simp [cleanupSweep, List.mem_filter, Nat.not_lt]

/-- Claim C9: the dispatch deadline (30000 ms) is strictly below the reaper
max age (60000 ms), and consequently a sweep that runs at any wall-clock time
`now` while a dispatch is still waiting on its record (`now` at most
`elapsed` past the record's creation, `elapsed` below the dispatch deadline)
leaves that record in the store — so the wait loop's unguarded
`cmd.status` read always finds the record. -/
theorem claim_C9 {V : Type} :
    dispatchTimeoutMs < cleanupMaxAge ∧
    ∀ (m : Store V) (cid : Nat) (c : Command V) (now elapsed : Nat),
      mapGet m cid = some c →
      now ≤ c.timestamp + elapsed →
      elapsed < dispatchTimeoutMs →
      mapGet (cleanupSweep m now) cid = some c := by
  refine ⟨by decide, fun m cid c now elapsed hget hnow helapsed => ?_⟩
  unfold mapGet at hget ⊢
  obtain ⟨q, hfind⟩ : ∃ q, m.find? (fun r => r.1 = cid) = some q := by
    cases h : m.find? (fun r => r.1 = cid) with
    | none => rw [h] at hget; simp at hget
    | some q => exact ⟨q, rfl⟩
  rw [hfind] at hget
  have hc : q.2 = c := by simpa using hget
  have hq : (fun r : Nat × Command V => decide (now - r.2.timestamp ≤ cleanupMaxAge)) q
      = true := by
    simp only [decide_eq_true_eq, hc]
    unfold dispatchTimeoutMs at helapsed
    unfold cleanupMaxAge
    omega
  rw [cleanupSweep, find?_filter_of_pred m _ _ q hfind hq, Option.map_some', hc]

/-- Claim C9 witness: a sweep at wall-clock 100 during a dispatch whose record
was created at 0, with 200 ms elapsed, keeps the record. -/
theorem claim_C9_witness :
    (let c : Command String :=
      { id := 1, action := "click", params := "sel", timestamp := 0,
        status := .pending, result := .null };
     mapGet [(1, c)] 1 = some c ∧ 100 ≤ c.timestamp + 200 ∧ 200 < dispatchTimeoutMs ∧
     mapGet (cleanupSweep [(1, c)] 100) 1 = some c) :=
  ⟨rfl, by decide, by decide,
    (claim_C9 (V := String)).2 _ 1 _ 100 200 rfl (by decide) (by decide)⟩

/-- Claim C2, counterexample.  The claim says dispatch takes the timeout as a
caller-supplied parameter `timeoutMs` and raises Timeout whenever no report
arrives before `timeoutMs` elapses.  `sendCommandToExtension` takes no such
parameter — its timeout is the hardcoded constant 30000 — so for the caller
intent `timeoutMs = 100` and a report processed at elapsed 500 ms (no report
arrives before 100 ms elapse, `¬ 500 < 100`), the claim demands Timeout, yet
dispatch returns the success payload. -/
theorem claim_C2_counterexample :
    ¬ (500 < 100) ∧
    (sendCommandToExtension ([] : Store String) 0 "click_element" "sel" 0
        (some ⟨500, true, "ok", none⟩)).1 =
      DispatchOutcome.success (.payload "ok") ∧
    (sendCommandToExtension ([] : Store String) 0 "click_element" "sel" 0
        (some ⟨500, true, "ok", none⟩)).1 ≠ DispatchOutcome.timeout := by
  refine ⟨by decide, by decide, by decide⟩

/-- Claim C2, amended: the dispatch timeout is the fixed constant 30000 ms
(`const timeout = 30000`), not a caller-supplied parameter; for every
dispatched command for which no result report arrives before that deadline
elapses, dispatch raises Timeout and the store no longer contains the
command's id afterward. -/
theorem claim_C2 {V : Type} (m0 : Store V) (idc : Nat) (action : String) (params : V)
    (t0 : Nat) (arrival : Option (ReportEvent V))
    (h : ∀ ev, arrival = some ev → dispatchTimeoutMs ≤ ev.arrivalMs) :
    (sendCommandToExtension m0 idc action params t0 arrival).1 = .timeout ∧
    mapGet (sendCommandToExtension m0 idc action params t0 arrival).2 (idc + 1) = none := by
  have hins := mapGet_mapSet_self m0 (idc + 1) (newCommand (idc + 1) action params t0)
  have hpend : ∀ j, j < pollTicks →
      ∃ c, mapGet (storeAt
          (mapSet m0 (idc + 1) (newCommand (idc + 1) action params t0))
          (idc + 1) arrival (pollIntervalMs * (0 + j))) (idc + 1) = some c ∧
        c.status = .pending := by
    intro j hj
    have henv : storeAt (mapSet m0 (idc + 1) (newCommand (idc + 1) action params t0))
        (idc + 1) arrival (pollIntervalMs * (0 + j)) =
        mapSet m0 (idc + 1) (newCommand (idc + 1) action params t0) := by
      cases arrival with
      | none => rfl
      | some ev =>
        have hle := h ev rfl
        have hnle : ¬ ev.arrivalMs ≤ pollIntervalMs * (0 + j) := by
          have hj' : j < 300 := hj
          have hle' : (30000 : Nat) ≤ ev.arrivalMs := hle
          show ¬ ev.arrivalMs ≤ 100 * (0 + j)
          omega
        rw [Nat.zero_add] at hnle
        simp [storeAt, hnle]
    rw [henv]
    exact ⟨_, hins, rfl⟩
  unfold sendCommandToExtension
  rw [sendLoop_pending_timeout _ _ pollTicks 0 hpend]
  exact ⟨rfl, mapGet_mapDelete_self _ _⟩

/-- Claim C2 witness: the amended statement with no peer report at all. -/
theorem claim_C2_witness :
    (∀ ev : ReportEvent String, (none : Option (ReportEvent String)) = some ev →
      dispatchTimeoutMs ≤ ev.arrivalMs) ∧
    (sendCommandToExtension ([] : Store String) 0 "navigate_to" "url" 0 none).1 = .timeout ∧
    mapGet (sendCommandToExtension ([] : Store String) 0 "navigate_to" "url" 0 none).2 1 =
      none :=
  ⟨fun _ h => (nomatch h), claim_C2 [] 0 "navigate_to" "url" 0 none (fun _ h => (nomatch h))⟩

/-- Claim C3: if the peer's success report is processed at least one poll
interval before the 30000 ms deadline, dispatch observes it at the next check
and returns exactly the reported payload, and the dispatched id is no longer
in the store afterward. -/
theorem claim_C3 {V : Type} (m0 : Store V) (idc : Nat) (action : String) (params : V)
    (t0 : Nat) (ev : ReportEvent V)
    (hsucc : ev.success = true)
    (hbefore : ev.arrivalMs + pollIntervalMs ≤ dispatchTimeoutMs) :
    (sendCommandToExtension m0 idc action params t0 (some ev)).1 =
      .success (.payload ev.result) ∧
    mapGet (sendCommandToExtension m0 idc action params t0 (some ev)).2 (idc + 1) = none := by
  have hins := mapGet_mapSet_self m0 (idc + 1) (newCommand (idc + 1) action params t0)
  have harr : ∃ j, j < pollTicks ∧ ev.arrivalMs ≤ pollIntervalMs * (0 + j) := by
    have hb : ev.arrivalMs + 100 ≤ 30000 := hbefore
    refine ⟨(ev.arrivalMs + pollIntervalMs - 1) / pollIntervalMs, ?_, ?_⟩
    · show (ev.arrivalMs + 100 - 1) / 100 < 300
      omega
    · show ev.arrivalMs ≤ 100 * (0 + (ev.arrivalMs + 100 - 1) / 100)
      omega
  have hrun := sendLoop_report _ (idc + 1) ev _ hins rfl pollTicks 0 harr
  unfold sendCommandToExtension
  rw [hrun, hsucc]
  exact ⟨rfl, mapGet_mapDelete_self _ _⟩

/-- Claim C3 witness: a success report processed at elapsed 0 is returned
verbatim. -/
theorem claim_C3_witness :
    ((⟨0, true, "clicked", none⟩ : ReportEvent String).success = true ∧
      (⟨0, true, "clicked", none⟩ : ReportEvent String).arrivalMs + pollIntervalMs ≤
        dispatchTimeoutMs) ∧
    (sendCommandToExtension ([] : Store String) 0 "click_element" "sel" 0
        (some ⟨0, true, "clicked", none⟩)).1 = .success (.payload "clicked") ∧
    mapGet (sendCommandToExtension ([] : Store String) 0 "click_element" "sel" 0
        (some ⟨0, true, "clicked", none⟩)).2 1 = none :=
  ⟨⟨rfl, by decide⟩,
    claim_C3 [] 0 "click_element" "sel" 0 ⟨0, true, "clicked", none⟩ rfl (by decide)⟩

/-- Claim C8, counterexample.  The claim says the error surfaced to the RPC
caller equals the `error` field of the report verbatim.  The source throws
`new Error(cmd.result?.error || 'Command failed')`, so a reported empty-string
error is replaced by the fallback: the surfaced message is "Command failed",
not the reported "". -/
theorem claim_C8_counterexample :
    (sendCommandToExtension ([] : Store String) 0 "click_element" "sel" 0
        (some ⟨0, false, "x", some ""⟩)).1 =
      DispatchOutcome.actionError "Command failed" ∧
    ¬ ("Command failed" = "") := by
  refine ⟨by decide, by decide⟩

/-- Claim C8, amended: if the peer reports failure (at least one poll interval
before the deadline) with a non-empty error message, dispatch raises an error
carrying that message verbatim; a missing or empty `error` field surfaces as
the fallback message "Command failed". -/
theorem claim_C8 {V : Type} (m0 : Store V) (idc : Nat) (action : String) (params : V)
    (t0 : Nat) (ev : ReportEvent V) (s : String)
    (hfail : ev.success = false)
    (herr : ev.error = some s)
    (hs : s ≠ "")
    (hbefore : ev.arrivalMs + pollIntervalMs ≤ dispatchTimeoutMs) :
    (sendCommandToExtension m0 idc action params t0 (some ev)).1 = .actionError s := by
  have hins := mapGet_mapSet_self m0 (idc + 1) (newCommand (idc + 1) action params t0)
  have harr : ∃ j, j < pollTicks ∧ ev.arrivalMs ≤ pollIntervalMs * (0 + j) := by
    have hb : ev.arrivalMs + 100 ≤ 30000 := hbefore
    refine ⟨(ev.arrivalMs + pollIntervalMs - 1) / pollIntervalMs, ?_, ?_⟩
    · show (ev.arrivalMs + 100 - 1) / 100 < 300
      omega
    · show ev.arrivalMs ≤ 100 * (0 + (ev.arrivalMs + 100 - 1) / 100)
      omega
  have hrun := sendLoop_report _ (idc + 1) ev _ hins rfl pollTicks 0 harr
  unfold sendCommandToExtension
  rw [hrun, hfail, herr]
  simp [jsOrStr, hs]

/-- Claim C8 witness: a failure report with the non-empty message "boom" is
surfaced verbatim. -/
theorem claim_C8_witness :
    ((⟨0, false, "x", some "boom"⟩ : ReportEvent String).success = false ∧
      (⟨0, false, "x", some "boom"⟩ : ReportEvent String).error = some "boom" ∧
      "boom" ≠ "" ∧
      (⟨0, false, "x", some "boom"⟩ : ReportEvent String).arrivalMs + pollIntervalMs ≤
        dispatchTimeoutMs) ∧
    (sendCommandToExtension ([] : Store String) 0 "click_element" "sel" 0
        (some ⟨0, false, "x", some "boom"⟩)).1 = .actionError "boom" :=
  ⟨⟨rfl, rfl, by decide, by decide⟩,
    claim_C8 [] 0 "click_element" "sel" 0 ⟨0, false, "x", some "boom"⟩ "boom" rfl rfl
      (by decide) (by decide)⟩

/-- Claim C5: starting from the empty buffers, after any sequence of
`/devtools-data` pushes each buffer holds exactly the per-capacity suffix of
the data pushed for its type, in arrival order — so no buffer ever exceeds
its capacity (network 5000, console 5000, performance 500), eviction is
oldest-first, and in particular after 5001 network pushes the network buffer
holds exactly the last 5000 records in arrival order. -/
theorem claim_C5 :
    (∀ (V : Type) (evs : List (TelemetryEvent V)),
      (foldPost initialDevToolsData evs).networkRequests =
        (eventsOfType "network" evs).drop
          ((eventsOfType "network" evs).length - networkCapacity) ∧
      (foldPost initialDevToolsData evs).consoleLogs =
        (eventsOfType "console" evs).drop
          ((eventsOfType "console" evs).length - consoleCapacity) ∧
      (foldPost initialDevToolsData evs).performanceMetrics =
        (eventsOfType "performance" evs).drop
          ((eventsOfType "performance" evs).length - performanceCapacity) ∧
      (foldPost initialDevToolsData evs).networkRequests.length ≤ networkCapacity ∧
      (foldPost initialDevToolsData evs).consoleLogs.length ≤ consoleCapacity ∧
      (foldPost initialDevToolsData evs).performanceMetrics.length ≤ performanceCapacity) ∧
    (foldPost initialDevToolsData
        ((List.range 5001).map (fun n => (⟨"network", n, ""⟩ : TelemetryEvent Nat)))).networkRequests =
      (List.range 5001).drop 1 := by
  have general : ∀ (V : Type) (evs : List (TelemetryEvent V)),
      (foldPost initialDevToolsData evs).networkRequests =
        (eventsOfType "network" evs).drop
          ((eventsOfType "network" evs).length - networkCapacity) ∧
      (foldPost initialDevToolsData evs).consoleLogs =
        (eventsOfType "console" evs).drop
          ((eventsOfType "console" evs).length - consoleCapacity) ∧
      (foldPost initialDevToolsData evs).performanceMetrics =
        (eventsOfType "performance" evs).drop
          ((eventsOfType "performance" evs).length - performanceCapacity) ∧
      (foldPost initialDevToolsData evs).networkRequests.length ≤ networkCapacity ∧
      (foldPost initialDevToolsData evs).consoleLogs.length ≤ consoleCapacity ∧
      (foldPost initialDevToolsData evs).performanceMetrics.length ≤ performanceCapacity := by
    intro V evs
    have hn := foldPost_networkRequests evs (initialDevToolsData (V := V))
    have hc := foldPost_consoleLogs evs (initialDevToolsData (V := V))
    have hp := foldPost_performanceMetrics evs (initialDevToolsData (V := V))
    have e1 : (initialDevToolsData (V := V)).networkRequests = [] := rfl
    have e2 : (initialDevToolsData (V := V)).consoleLogs = [] := rfl
    have e3 : (initialDevToolsData (V := V)).performanceMetrics = [] := rfl
    rw [pushAll_eq_drop _ _ _ (by decide) (by rw [e1]; exact Nat.zero_le _), e1] at hn
    rw [pushAll_eq_drop _ _ _ (by decide) (by rw [e2]; exact Nat.zero_le _), e2] at hc
    rw [pushAll_eq_drop _ _ _ (by decide) (by rw [e3]; exact Nat.zero_le _), e3] at hp
    simp only [List.nil_append, List.length_nil, Nat.zero_add] at hn hc hp
    refine ⟨hn, hc, hp, ?_, ?_, ?_⟩
    · rw [hn, List.length_drop]; omega
    · rw [hc, List.length_drop]; omega
    · rw [hp, List.length_drop]; omega
  refine ⟨general, ?_⟩
  have hev : eventsOfType "network"
      ((List.range 5001).map (fun n => (⟨"network", n, ""⟩ : TelemetryEvent Nat))) =
      List.range 5001 := by
    unfold eventsOfType
    rw [List.filter_map, List.filter_eq_self.mpr (by intro a _; simp), List.map_map]
    show List.map (fun n => n) (List.range 5001) = List.range 5001
    simp
  have := (general Nat ((List.range 5001).map (fun n => ⟨"network", n, ""⟩))).1
  rw [hev] at this
  rw [this, List.length_range]
  norm_num [networkCapacity]

/-- Claim C10: in each of the three telemetry query handlers, a limit of 0 is
falsy (`args.limit || default`), so it is treated like an absent limit: the
handler substitutes the default (50, 50, 20) and returns the last
default-many records — never zero records — exactly as when no limit is
given. -/
theorem claim_C10 {V : Type} (net logs perf : List (TelemetryRecord V)) :
    getNetworkRequests net (some 0) none none = getNetworkRequests net none none none ∧
    getNetworkRequests net (some 0) none none = jsSliceNeg net 50 ∧
    (getNetworkRequests net (some 0) none none).length ≤ 50 ∧
    getConsoleLogs logs (some 0) none none = getConsoleLogs logs none none none ∧
    getConsoleLogs logs (some 0) none none = jsSliceNeg logs 50 ∧
    (getConsoleLogs logs (some 0) none none).length ≤ 50 ∧
    getPerformanceMetrics perf (some 0) none = getPerformanceMetrics perf none none ∧
    getPerformanceMetrics perf (some 0) none = jsSliceNeg perf 20 ∧
    (getPerformanceMetrics perf (some 0) none).length ≤ 20 := by
  refine ⟨rfl, rfl, ?_, rfl, rfl, ?_, rfl, rfl, ?_⟩
  all_goals
    simp [getNetworkRequests, getConsoleLogs, getPerformanceMetrics, jsOrNat,
      applyTabFilter, jsSliceNeg, List.length_drop]
  all_goals omega

end ChromeDevtoolsMcp
